import Mathlib

/-!
Verification of the neo4j-fastmcp-server access-control and graph-mutation core.

The definitions below are a shallow embedding of the TypeScript source:
`src/auth/oauth.ts`, `src/auth/descope-provider.ts`, `src/auth/api-key.ts`,
`src/server.ts`, the `Neo4jClient` graph-store adapter, and the API-key
server variant.  Stateful store operations are modelled as explicit state
passing over a `Graph` value; JavaScript truthiness and regular-expression
behaviour are modelled explicitly where the code relies on them.
-/

namespace Neo4jFastMcp

/-! ### Sessions and the scope gate (`src/auth/oauth.ts`, `src/server.ts`) -/

/-- The part of `AuthSession` the authorization gate reads: the scope list. -/
structure AuthSession where
  scopes : List String
deriving Repr, DecidableEq

/-- Embedding of `OAuthProvider.hasScope`:
`session.scopes.includes(requiredScope) || session.scopes.includes("admin")`. -/
def hasScope (session : AuthSession) (requiredScope : String) : Bool :=
  session.scopes.contains requiredScope || session.scopes.contains "admin"

/-- A registered tool: its name and the scope its handler demands inline. -/
structure Tool where
  name : String
  requiredScope : String
deriving Repr, DecidableEq

/-- The ten tools registered by `setupTools` in `src/server.ts`, in
registration order, each with the scope string passed to `hasScope`
inside its `execute` handler. -/
def tools : List Tool :=
  [ ⟨"create_entities", "write"⟩
  , ⟨"create_relations", "write"⟩
  , ⟨"add_observations", "write"⟩
  , ⟨"delete_entities", "write"⟩
  , ⟨"delete_observations", "write"⟩
  , ⟨"delete_relations", "write"⟩
  , ⟨"read_graph", "read"⟩
  , ⟨"search_nodes", "read"⟩
  , ⟨"find_nodes", "read"⟩
  , ⟨"health_check", "admin"⟩ ]

/-- Outcome of one tool invocation.  `executed b` records whether the
handler reached the graph-store client (`b = true` when it did). -/
inductive ExecOutcome where
  | authRequired
  | insufficientScope (required : String)
  | executed (storeAccess : Bool)
deriving Repr, DecidableEq

/-- Embedding of the common shape of every `execute` handler in
`src/server.ts`: first `if (!session) throw`, then
`if (!hasScope(session, req)) throw`, and only then a `neo4jClient`
call (for `health_check`, `verifyConnection`). -/
def execTool (session : Option AuthSession) (t : Tool) : ExecOutcome :=
  match session with
  | none => .authRequired
  | some s =>
    if hasScope s t.requiredScope then .executed true
    else .insufficientScope t.requiredScope

/-- Whether an invocation outcome involved any graph-store access. -/
def storeAccessed : ExecOutcome → Bool
  | .executed b => b
  | _ => false

/-! ### JS string primitives used by the auth code -/

/-- JS `String.prototype.startsWith`, modelled on character lists. -/
def jsStartsWith (s pre : String) : Bool :=
  s.toList.take pre.toList.length == pre.toList

/-- JS `String.prototype.slice(n)` (from index to end), modelled on
character lists. -/
def jsSlice (s : String) (n : Nat) : String :=
  String.mk (s.toList.drop n)

/-- JS `String.prototype.toLowerCase`, modelled on character lists. -/
def jsToLowerCase (s : String) : String :=
  String.mk (s.toList.map Char.toLower)

/-! ### OAuth token extraction (`src/auth/oauth.ts`) -/

/-- Character class of the JS regex `\s`, restricted to the latin-1 range
that can occur in an HTTP header value. -/
def jsWhitespaceChar (c : Char) : Bool :=
  c == ' ' || c == '\t' || c == '\n' || c == '\x0b' || c == '\x0c' || c == '\r' || c == '\u00A0'

/-- Character class of the JS regex `.` (without the `s` flag): any
character except a line terminator. -/
def dotChar (c : Char) : Bool :=
  !(c == '\n' || c == '\r' || c == '\u2028' || c == '\u2029')

/-- Embedding of `authHeader.match(/^Bearer\s+(.+)$/i)`: the captured
group when the header matches, `none` otherwise.  The `\s+` quantifier is
greedy, so when everything after the prefix is whitespace it backtracks
and the capture is the final whitespace character. -/
def bearerCapture (h : String) : Option String :=
  let cs := h.toList
  if (cs.take 6).map Char.toLower == "bearer".toList then
    let rest := cs.drop 6
    let ws := rest.takeWhile jsWhitespaceChar
    let tail := rest.dropWhile jsWhitespaceChar
    if ws.isEmpty then none
    else if !tail.isEmpty then
      if tail.all dotChar then some (String.mk tail) else none
    else
      match rest.getLast? with
      | some c => if rest.length ≥ 2 && dotChar c then some (String.mk [c]) else none
      | none => none
  else none

/-- Embedding of `OAuthProvider.extractTokenFromRequest`.  The JS guard
`if (!authHeader) return null` is truthiness: an absent header and an
empty-string header both return `null`; otherwise the Bearer capture is
returned when the regex matches, and the whole header value otherwise. -/
def extractTokenFromRequest (authorization : Option String) : Option String :=
  match authorization with
  | none => none
  | some h =>
    if h == "" then none
    else
      match bearerCapture h with
      | some tok => some tok
      | none => some h

/-- Outcome of `OAuthProvider.authenticateRequest` up to the point where
it either rejects with the 401 missing-token response or hands the
extracted token to `verifyJWT`. -/
inductive OAuthAuthStep where
  | missingToken
  | verifyAttempt (token : String)
deriving Repr, DecidableEq

/-- Embedding of the front half of `OAuthProvider.authenticateRequest`:
`const token = this.extractTokenFromRequest(request); if (!token) throw 401;`
then `this.verifyJWT(token)` is attempted. -/
def oauthAuthenticate (authorization : Option String) : OAuthAuthStep :=
  match extractTokenFromRequest authorization with
  | none => .missingToken
  | some tok => if tok == "" then .missingToken else .verifyAttempt tok

/-! ### Descope credential precedence (`src/auth/descope-provider.ts`) -/

/-- The two headers `DescopeAuthProvider.authenticateRequest` reads. -/
structure Request where
  authorization : Option String
  xApiKey : Option String
deriving Repr, DecidableEq

/-- JS truthiness of a possibly-absent string header value. -/
def jsTruthy : Option String → Bool
  | none => false
  | some s => !(s == "")

/-- Outcome of `DescopeAuthProvider.authenticateRequest` up to the first
external validation call: which credential path is attempted, or the
401 missing-credential rejection. -/
inductive DescopeAuthOutcome where
  | delegated (token : String)
  | staticKey (key : String)
  | missingCredential
deriving Repr, DecidableEq

/-- Whether the `Authorization` header carries a Bearer value:
`authHeader?.startsWith("Bearer ")`. -/
def bearerHeaderPresent (r : Request) : Bool :=
  match r.authorization with
  | some h => jsStartsWith h "Bearer "
  | none => false

/-- Embedding of the credential-precedence branch of
`DescopeAuthProvider.authenticateRequest`: if the `Authorization` header
starts with `Bearer `, validate the sliced token as a delegated session;
otherwise read `x-api-key` and reject with 401 when it is falsy. -/
def descopeAuthenticate (r : Request) : DescopeAuthOutcome :=
  match r.authorization with
  | some h =>
    if jsStartsWith h "Bearer " then .delegated (jsSlice h 7)
    else
      match r.xApiKey with
      | some k => if k == "" then .missingCredential else .staticKey k
      | none => .missingCredential
  | none =>
    match r.xApiKey with
    | some k => if k == "" then .missingCredential else .staticKey k
    | none => .missingCredential

/-! ### Descope capability resolution (`src/auth/descope-provider.ts`) -/

/-- One value of the `tenants` record on a Descope token. -/
structure Tenant where
  permissions : Option (List String)
  roles : Option (List String)
deriving Repr, DecidableEq

/-- The claim-bag fields `extractPermissions` reads from
`authInfo.token` (`src/types/descope.ts`). -/
structure DescopeToken where
  permissions : Option (List String)
  roles : Option (List String)
  tenants : Option (List Tenant)
deriving Repr, DecidableEq

/-- Members of the `MCPScopes` enum used by the capability resolver. -/
def MCPScopes.READ : String := "mcp:read"

def MCPScopes.WRITE : String := "mcp:write"

def MCPScopes.ADMIN : String := "mcp:admin"

/-- The `switch (role.toLowerCase())` table inside `extractPermissions`:
`admin`, `writer` and `reader` are the only handled cases; every other
role falls through contributing nothing. -/
def roleScopes (role : String) : List String :=
  if jsToLowerCase role == "admin" then [MCPScopes.ADMIN]
  else if jsToLowerCase role == "writer" then [MCPScopes.WRITE, MCPScopes.READ]
  else if jsToLowerCase role == "reader" then [MCPScopes.READ]
  else []

/-- One step of first-occurrence deduplication: keep the element only
when it has not been seen. -/
def jsSetStep (acc : List String) (x : String) : List String :=
  if acc.contains x then acc else acc ++ [x]

/-- Embedding of `[...new Set(xs)]`: first-occurrence deduplication. -/
def jsSetDedup (xs : List String) : List String :=
  xs.foldl jsSetStep []

/-- The permission list accumulated by `extractPermissions` before the
default and the dedup: direct `token.permissions`, then the role-mapped
scopes in role order, then every tenant permission list. -/
def rawPermissions (t : DescopeToken) : List String :=
  (t.permissions.getD [])
    ++ (t.roles.getD []).foldl (fun acc role => acc ++ roleScopes role) []
    ++ (t.tenants.getD []).foldl (fun acc tn => acc ++ tn.permissions.getD []) []

/-- Embedding of `DescopeAuthProvider.extractPermissions`: accumulate
direct, role-mapped and tenant permissions; push `mcp:read` when the
accumulator is empty; return `[...new Set(permissions)]`. -/
def extractPermissions (t : DescopeToken) : List String :=
  let ps := rawPermissions t
  jsSetDedup (if ps.isEmpty then [MCPScopes.READ] else ps)

/-! ### Graph store adapter (`Neo4jClient`)

The `Neo4jClient` issues Cypher statements against `:Memory` nodes keyed
by `name`; observations are a list-valued property of the node; typed
edges connect nodes.  A `Graph` value models the store contents.  Every
query template in `createRelations` and `deleteRelations` writes the
relationship type inside backquotes as `\${relation.relationType}` with
the dollar sign escaped in the TypeScript template literal, so the
Cypher text carries that constant token as the edge-type identifier for
every call and the caller-supplied `relationType` (bound as an unused
query parameter) never reaches the query text. -/

/-- An entity node: `name` key, `type` property, list-valued
`observations` property. -/
structure Entity where
  name : String
  type : String
  observations : List String
deriving Repr, DecidableEq

/-- A stored relationship with the edge-type identifier it carries. -/
structure Edge where
  source : String
  target : String
  edgeType : String
deriving Repr, DecidableEq

/-- The store contents: entity nodes and relationships. -/
structure Graph where
  entities : List Entity
  edges : List Edge
deriving Repr, DecidableEq

/-- A relation argument as the tools receive it. -/
structure Rel where
  source : String
  target : String
  relationType : String
deriving Repr, DecidableEq

/-- The edge-type token that appears (between backquotes) in the Cypher
text of `createRelations` and `deleteRelations`: the TypeScript template
literal escapes the interpolation (`\$`), so this constant literal text
is sent for every relation, independent of the caller input. -/
def edgeTypeToken : String := "$\x7brelation.relationType\x7d"

/-- Edge-type token of the `MERGE (from)-[r:...]->(to)` statement issued
for one relation.  Because of the escaped interpolation it is the
constant `edgeTypeToken`, whatever the relation argument holds. -/
def edgeTypeTokenFor (_r : Rel) : String := edgeTypeToken

/-- Modelled from the spec: the allow-list sanitizer of the design notes
(whitespace to underscore, uppercase, strip to `[A-Za-z0-9_]`).  No such
sanitizer exists anywhere in the source. -/
def sanitizeRelationType (s : String) : String :=
  String.mk
    (((s.toList.map (fun c => if c.isWhitespace then '_' else c)).map Char.toUpper).filter
      (fun c => c.isAlphanum || c == '_'))

/-- Whether a `:Memory` node with the given name exists. -/
def entityExists (g : Graph) (n : String) : Bool :=
  g.entities.any (fun e => e.name == n)

/-- One row of `createEntities`:
`MERGE (e:Memory  name ) SET e += entity, e.type = entity.type`.  The
`MERGE` upserts by name; `SET e += entity` writes every property of the
argument map, so `type` and `observations` are both overwritten with the
supplied values (the label `SET` is also escaped in the source and has
no bearing on the record). -/
def upsertEntity (g : Graph) (e : Entity) : Graph :=
  if g.entities.any (fun x => x.name == e.name) then
    { g with
      entities := g.entities.map (fun x =>
        if x.name == e.name then { x with type := e.type, observations := e.observations }
        else x) }
  else
    { g with entities := g.entities ++ [e] }

/-- `Neo4jClient.createEntities`: `UNWIND $entities` applies the upsert
row by row. -/
def createEntities (g : Graph) (es : List Entity) : Graph :=
  es.foldl upsertEntity g

/-- One iteration of the `createRelations` loop:
`MATCH (from:Memory name: $source), (to:Memory name: $target)` followed
by `MERGE (from)-[r:...]->(to)`.  When either endpoint name matches no
node the `MATCH` produces no row and nothing happens; otherwise the edge
carrying the constant `edgeTypeToken` is merge-created (idempotently). -/
def mergeEdge (g : Graph) (r : Rel) : Graph :=
  if entityExists g r.source && entityExists g r.target then
    let e : Edge := ⟨r.source, r.target, edgeTypeToken⟩
    if g.edges.contains e then g else { g with edges := g.edges ++ [e] }
  else g

/-- `Neo4jClient.createRelations`: one statement per relation, in order,
each applied independently of the fate of the others. -/
def createRelations (g : Graph) (rs : List Rel) : Graph :=
  rs.foldl mergeEdge g

/-- One `add_observations` batch item. -/
structure ObservationAddition where
  entityName : String
  contents : List String
deriving Repr, DecidableEq

/-- The `new` column of the `addObservations` query:
`[o in obs.contents WHERE NOT o IN coalesce(e.observations, [])]` —
the contents not already present among the existing observations. -/
def newObs (existing contents : List String) : List String :=
  contents.filter (fun o => !(existing.contains o))

/-- One `UNWIND` row of `Neo4jClient.addObservations`:
`MATCH (e:Memory name ); new := contents minus existing observations;`
`SET e.observations = coalesce(e.observations, []) + new; RETURN name, new`.
A name matching no node yields no row and no result entry. -/
def addObsRow (acc : Graph × List (String × List String)) (item : ObservationAddition) :
    Graph × List (String × List String) :=
  let (g, results) := acc
  let newFor := fun (e : Entity) => newObs e.observations item.contents
  let matched := g.entities.filter (fun e => e.name == item.entityName)
  let g2 : Graph :=
    { g with
      entities := g.entities.map (fun x =>
        if x.name == item.entityName then { x with observations := x.observations ++ newFor x }
        else x) }
  (g2, results ++ matched.map (fun e => (e.name, newFor e)))

/-- `Neo4jClient.addObservations` over a batch, returning the updated
store and the per-entity `(name, addedObservations)` rows. -/
def addObservations (g : Graph) (items : List ObservationAddition) :
    Graph × List (String × List String) :=
  items.foldl addObsRow (g, [])

/-- `Neo4jClient.deleteEntities`:
`UNWIND $entities as name MATCH (e:Memory  name ) DETACH DELETE e` —
each matched node is removed together with every relationship attached
to it; names matching nothing have no effect. -/
def deleteEntities (g : Graph) (names : List String) : Graph :=
  let doomed := (g.entities.filter (fun e => names.contains e.name)).map (fun e => e.name)
  { entities := g.entities.filter (fun e => !(names.contains e.name))
  , edges := g.edges.filter (fun r => !(doomed.contains r.source) && !(doomed.contains r.target)) }

/-- One iteration of the `deleteRelations` loop:
`MATCH (source ...)-[r:...]->(target ...) DELETE r`.  The edge-type
position again carries the constant `edgeTypeToken` (escaped
interpolation), so exactly the edges between the pair carrying that
token are deleted, and the caller `relationType` is ignored. -/
def deleteRelRow (g : Graph) (r : Rel) : Graph :=
  { g with
    edges := g.edges.filter (fun e =>
      !(e.source == r.source && e.target == r.target && e.edgeType == edgeTypeToken)) }

/-- `Neo4jClient.deleteRelations`: one statement per relation. -/
def deleteRelations (g : Graph) (rs : List Rel) : Graph :=
  rs.foldl deleteRelRow g

/-- `Neo4jClient.findNodes` issues the full-text query `name:(n1 n2 ...)`
over the `search` index, returning the matched entities plus every
relationship touching a matched entity (the `OPTIONAL MATCH
(entity)-[r]-(other)` clause is undirected).  The fielded exact-name
lookup is modelled as name membership. -/
def findNodes (g : Graph) (names : List String) : Graph :=
  let matched := g.entities.filter (fun e => names.contains e.name)
  { entities := matched
  , edges := g.edges.filter (fun r =>
      matched.any (fun e => e.name == r.source) || matched.any (fun e => e.name == r.target)) }

/-! ### The API-key server variant (`Neo4jMCPServerWithApiKey`)

Its `create_entities` handler works on `:Entity` nodes with observation
records held in separate `:Observation` nodes linked by
`HAS_OBSERVATION`, created unconditionally for every supplied
observation string. -/

/-- A `create_entities` item of the API-key variant (`observations` is
optional there). -/
structure ApiEntityInput where
  name : String
  type : String
  observations : Option (List String)
deriving Repr, DecidableEq

/-- Store contents of the API-key variant: `(name, type)` entity rows
and `(entityName, content)` observation records. -/
structure ApiGraph where
  entities : List (String × String)
  obsRecords : List (String × String)
deriving Repr, DecidableEq

/-- One loop iteration of the API-key `create_entities` handler:
`MERGE (e:Entity name: $name) SET e.type = $type, ...` then, for every
supplied observation, `CREATE (o:Observation ...)` and a
`HAS_OBSERVATION` edge — a fresh record each time, with no check against
records already present. -/
def apiCreateEntity (g : ApiGraph) (e : ApiEntityInput) : ApiGraph :=
  let ents :=
    if g.entities.any (fun p => p.fst == e.name) then
      g.entities.map (fun p => if p.fst == e.name then (p.fst, e.type) else p)
    else g.entities ++ [(e.name, e.type)]
  { entities := ents
  , obsRecords := g.obsRecords ++ (e.observations.getD []).map (fun c => (e.name, c)) }

/-- The API-key `create_entities` handler over its batch. -/
def apiCreateEntities (g : ApiGraph) (es : List ApiEntityInput) : ApiGraph :=
  es.foldl apiCreateEntity g

/-! ### The `delete_relations` argument schema (`src/server.ts`) -/

/-- A raw `delete_relations` item before validation: any of the three
fields may be missing in the inbound JSON. -/
structure DeleteRelationArg where
  source : Option String
  target : Option String
  relationType : Option String
deriving Repr, DecidableEq

/-- The zod schema of the `delete_relations` tool in `src/server.ts`:
`source`, `target` and `relationType` are all declared `z.string()` with
no `.optional()`, so an item passes validation only when all three are
present. -/
def deleteRelationsParamsValid (items : List DeleteRelationArg) : Bool :=
  items.all (fun i => i.source.isSome && i.target.isSome && i.relationType.isSome)

/-! ## Shared list lemmas -/

/-- Bridge between the Bool `contains` used by the embedded code and
propositional membership. -/
theorem contains_iff_mem (l : List String) (a : String) : l.contains a = true ↔ a ∈ l := by
  simp

/-- Membership through one deduplication step. -/
theorem jsSetStep_mem (acc : List String) (x a : String) :
    a ∈ jsSetStep acc x ↔ a ∈ acc ∨ a = x := by
  unfold jsSetStep
  by_cases h : acc.contains x = true
  · rw [if_pos h]
    have hx : x ∈ acc := (contains_iff_mem acc x).mp h
    exact ⟨Or.inl, fun hc => hc.elim id (fun he => he ▸ hx)⟩
  · rw [if_neg h]
    simp

/-- Membership through the deduplicating fold. -/
theorem jsSetDedup_foldl_mem (xs : List String) (acc : List String) (a : String) :
    a ∈ xs.foldl jsSetStep acc ↔ a ∈ acc ∨ a ∈ xs := by
  induction xs generalizing acc with
  | nil => simp
  | cons y ys ih =>
    rw [List.foldl_cons, ih, jsSetStep_mem]
    simp [or_assoc]

/-- The deduplicating fold keeps the accumulator duplicate-free. -/
theorem jsSetDedup_foldl_nodup (xs : List String) (acc : List String) (h : acc.Nodup) :
    (xs.foldl jsSetStep acc).Nodup := by
  induction xs generalizing acc with
  | nil => simpa using h
  | cons y ys ih =>
    rw [List.foldl_cons]
    apply ih
    unfold jsSetStep
    by_cases hc : acc.contains y = true
    · rwa [if_pos hc]
    · rw [if_neg hc]
      refine List.Nodup.append h (List.nodup_singleton y) ?_
      intro b hb hb'
      rw [List.mem_singleton] at hb'
      subst hb'
      exact hc ((contains_iff_mem acc b).mpr hb)

/-- `jsSetDedup` preserves membership. -/
theorem jsSetDedup_mem (xs : List String) (a : String) : a ∈ jsSetDedup xs ↔ a ∈ xs := by
  unfold jsSetDedup
  rw [jsSetDedup_foldl_mem]
  simp

/-- `jsSetDedup` output is duplicate-free. -/
theorem jsSetDedup_nodup (xs : List String) : (jsSetDedup xs).Nodup :=
  jsSetDedup_foldl_nodup xs [] List.nodup_nil

/-- `jsSetDedup` of a nonempty list is nonempty. -/
theorem jsSetDedup_ne_nil (xs : List String) (h : xs ≠ []) : jsSetDedup xs ≠ [] := by
  match xs, h with
  | x :: xs, _ =>
    exact List.ne_nil_of_mem ((jsSetDedup_mem _ x).mpr (List.mem_cons_self x xs))

/-! ## C1 — the scope gate over the ten operations -/

/-- C1: for every session and every one of the ten registered tools, the
authorization check passes exactly when the required scope or `admin` is
in the session scope set; a session lacking both receives the
insufficient-scope error and the handler performs no graph-store access;
and the required scope is `read` for the three query tools, `write` for
the six mutation tools, and `admin` for `health_check`. -/
theorem c1_scope_gate (s : AuthSession) (t : Tool) (_ht : t ∈ tools) :
    ((execTool (some s) t = .executed true) ↔
        (t.requiredScope ∈ s.scopes ∨ "admin" ∈ s.scopes))
      ∧ (t.requiredScope ∉ s.scopes → "admin" ∉ s.scopes →
          execTool (some s) t = .insufficientScope t.requiredScope
            ∧ storeAccessed (execTool (some s) t) = false)
      ∧ tools.map (fun x => (x.name, x.requiredScope)) =
          [("create_entities", "write"), ("create_relations", "write"),
           ("add_observations", "write"), ("delete_entities", "write"),
           ("delete_observations", "write"), ("delete_relations", "write"),
           ("read_graph", "read"), ("search_nodes", "read"),
           ("find_nodes", "read"), ("health_check", "admin")] := by
  have hgate : hasScope s t.requiredScope = true ↔
      (t.requiredScope ∈ s.scopes ∨ "admin" ∈ s.scopes) := by
    simp [hasScope]
  refine ⟨?_, ?_, by decide⟩
  · cases hg : hasScope s t.requiredScope with
    | true => simpa [execTool, hg] using hgate.mp hg
    | false =>
      constructor
      · intro hexec
        simp [execTool, hg] at hexec
      · intro hmem
        exact absurd (hgate.mpr hmem) (by simp [hg])
  · intro h1 h2
    have hg : hasScope s t.requiredScope = false := by
      simp [hasScope, h1, h2]
    exact ⟨by simp [execTool, hg], by simp [execTool, storeAccessed, hg]⟩

/-- Witness for C1: a read-only session is denied `health_check` with no
store access, and the same session passes the `read_graph` gate. -/
theorem c1_scope_gate_witness :
    execTool (some ⟨["read"]⟩) ⟨"health_check", "admin"⟩ = .insufficientScope "admin"
      ∧ storeAccessed (execTool (some ⟨["read"]⟩) ⟨"health_check", "admin"⟩) = false
      ∧ execTool (some ⟨["read"]⟩) ⟨"read_graph", "read"⟩ = .executed true := by
  have h1 := c1_scope_gate ⟨["read"]⟩ ⟨"health_check", "admin"⟩ (by decide)
  have h2 := c1_scope_gate ⟨["read"]⟩ ⟨"read_graph", "read"⟩ (by decide)
  exact ⟨(h1.2.1 (by decide) (by decide)).1, (h1.2.1 (by decide) (by decide)).2,
    h2.1.mpr (Or.inl (by decide))⟩

/-! ## C2 — the edge-type token of createRelations -/

/-- C2 (code bug): at the failing input `⟨A, B, LIKES⟩`, the edge-type
token in the Cypher text of `createRelations` is the constant literal
text of the escaped interpolation, not the sanitized form of the caller
`relationType` that the spec prescribes; the edge merged into the store
carries that constant token. -/
theorem c2_edge_token_constant :
    edgeTypeTokenFor ⟨"A", "B", "LIKES"⟩ = "$\x7brelation.relationType\x7d"
      ∧ sanitizeRelationType "LIKES" = "LIKES"
      ∧ edgeTypeTokenFor ⟨"A", "B", "LIKES"⟩ ≠ sanitizeRelationType "LIKES"
      ∧ (∀ r : Rel, edgeTypeTokenFor r = edgeTypeToken)
      ∧ (createRelations ⟨[⟨"A", "T", []⟩, ⟨"B", "U", []⟩], []⟩ [⟨"A", "B", "LIKES"⟩]).edges
          = [⟨"A", "B", "$\x7brelation.relationType\x7d"⟩] :=
  ⟨rfl, by decide, by decide, fun _ => rfl, by decide⟩

/-! ## C3 — credential precedence of the Descope provider -/

/-- C3: whenever the `Authorization` header carries a Bearer value the
delegated path is attempted with the sliced token; the static-key header
is consulted only when it does not; and the request is rejected with the
missing-credential 401 exactly when no Bearer value is present and the
static-key header is absent (or falsy). -/
theorem c3_credential_precedence (r : Request) :
    (∀ h, r.authorization = some h → jsStartsWith h "Bearer " = true →
        descopeAuthenticate r = .delegated (jsSlice h 7))
      ∧ (bearerHeaderPresent r = false → ∀ k, r.xApiKey = some k → k ≠ "" →
          descopeAuthenticate r = .staticKey k)
      ∧ (descopeAuthenticate r = .missingCredential ↔
          bearerHeaderPresent r = false ∧ jsTruthy r.xApiKey = false) := by
  obtain ⟨auth, key⟩ := r
  refine ⟨?_, ?_, ?_⟩
  · rintro h rfl hb
    simp [descopeAuthenticate, hb]
  · intro hbp k hk hne
    cases auth with
    | none =>
      subst hk
      simp [descopeAuthenticate, hne]
    | some h =>
      have hs : jsStartsWith h "Bearer " = false := by
        simpa [bearerHeaderPresent] using hbp
      subst hk
      simp [descopeAuthenticate, hs, hne]
  · cases auth with
    | none =>
      cases key with
      | none => simp [descopeAuthenticate, bearerHeaderPresent, jsTruthy]
      | some k =>
        by_cases hk : k = "" <;>
          simp [descopeAuthenticate, bearerHeaderPresent, jsTruthy, hk]
    | some h =>
      cases key with
      | none =>
        by_cases hs : jsStartsWith h "Bearer " = true <;>
          simp [descopeAuthenticate, bearerHeaderPresent, jsTruthy, hs]
      | some k =>
        by_cases hs : jsStartsWith h "Bearer " = true <;>
          by_cases hk : k = "" <;>
            simp [descopeAuthenticate, bearerHeaderPresent, jsTruthy, hs, hk]

/-- Witness for C3: with both headers supplied the Bearer path wins;
with a non-Bearer header the static key is attempted; with neither
header the request is rejected as missing a credential. -/
theorem c3_credential_precedence_witness :
    descopeAuthenticate ⟨some "Bearer tok", some "key"⟩ = .delegated "tok"
      ∧ descopeAuthenticate ⟨some "Basic xyz", some "key"⟩ = .staticKey "key"
      ∧ descopeAuthenticate ⟨none, none⟩ = .missingCredential := by
  have h1 := (c3_credential_precedence ⟨some "Bearer tok", some "key"⟩).1 "Bearer tok" rfl
    (by decide)
  have h2 := (c3_credential_precedence ⟨some "Basic xyz", some "key"⟩).2.1 (by decide) "key" rfl
    (by decide)
  have h3 := ((c3_credential_precedence ⟨none, none⟩).2.2).mpr (by decide)
  rw [show jsSlice "Bearer tok" 7 = "tok" by decide] at h1
  exact ⟨h1, h2, h3⟩

/-! ## C4 — the capability resolver -/

/-- C4 counterexample: a token whose only claim is the role `write`
resolves to `mcp:read` alone; the claim as stated requires role `write`
to contribute the write scope. -/
theorem c4_role_write_counterexample :
    extractPermissions ⟨none, some ["write"], none⟩ = ["mcp:read"]
      ∧ "mcp:write" ∉ extractPermissions ⟨none, some ["write"], none⟩ :=
  ⟨by decide, by decide⟩

/-- C4 (amended): the resolver maps role `admin` to the admin scope,
role `writer` (case-insensitively) to write and read, role `reader` to
read, while every other role — including `write` and `read` — contributes
nothing; the result is the deduplicated accumulation of direct, role and
tenant permissions, defaulting to exactly `mcp:read` when that
accumulation is empty, and is never empty. -/
theorem c4_capability_resolver (t : DescopeToken) :
    (extractPermissions t).Nodup
      ∧ extractPermissions t ≠ []
      ∧ (∀ s, s ∈ extractPermissions t ↔
          (s ∈ rawPermissions t ∨ (rawPermissions t = [] ∧ s = "mcp:read")))
      ∧ roleScopes "admin" = ["mcp:admin"]
      ∧ roleScopes "Writer" = ["mcp:write", "mcp:read"]
      ∧ roleScopes "reader" = ["mcp:read"]
      ∧ roleScopes "write" = []
      ∧ roleScopes "read" = [] := by
  refine ⟨jsSetDedup_nodup _, ?_, ?_, by decide, by decide, by decide, by decide, by decide⟩
  · show jsSetDedup (if (rawPermissions t).isEmpty then [MCPScopes.READ]
      else rawPermissions t) ≠ []
    by_cases h : rawPermissions t = []
    · rw [h]
      exact jsSetDedup_ne_nil _ (by decide)
    · rw [if_neg (by simpa using h)]
      exact jsSetDedup_ne_nil _ h
  · intro s
    show s ∈ jsSetDedup (if (rawPermissions t).isEmpty then [MCPScopes.READ]
      else rawPermissions t) ↔ _
    rw [jsSetDedup_mem]
    by_cases h : rawPermissions t = []
    · simp [h, MCPScopes.READ]
    · rw [if_neg (by simpa using h)]
      simp [h]

/-- Witness for C4 (amended) at a concrete token: the single role
`Writer` resolves to a nonempty scope set containing the write scope. -/
theorem c4_capability_resolver_witness :
    extractPermissions ⟨none, some ["Writer"], none⟩ ≠ []
      ∧ "mcp:write" ∈ extractPermissions ⟨none, some ["Writer"], none⟩ := by
  have h := c4_capability_resolver ⟨none, some ["Writer"], none⟩
  exact ⟨h.2.1, (h.2.2.1 "mcp:write").mpr (Or.inl (by decide))⟩

/-! ## C5 — relation creation with a missing endpoint -/

/-- Edge creation never touches entity nodes. -/
theorem mergeEdge_entities (g : Graph) (r : Rel) : (mergeEdge g r).entities = g.entities := by
  unfold mergeEdge
  by_cases h1 : (entityExists g r.source && entityExists g r.target) = true <;>
    by_cases h2 : (⟨r.source, r.target, edgeTypeToken⟩ : Edge) ∈ g.edges <;>
      simp [h1, h2]

/-- A whole `createRelations` batch never touches entity nodes. -/
theorem createRelations_entities (g : Graph) (rs : List Rel) :
    (createRelations g rs).entities = g.entities := by
  induction rs generalizing g with
  | nil => rfl
  | cons a as ih =>
    have hstep : createRelations g (a :: as) = createRelations (mergeEdge g a) as := rfl
    rw [hstep, ih (mergeEdge g a), mergeEdge_entities]

/-- C5: when either endpoint of a relation is missing from the graph,
that item creates no edge and auto-creates no entity (the store is left
unchanged), and the remaining items of the batch are still applied
independently. -/
theorem c5_missing_endpoint (g : Graph) (r : Rel) (rs : List Rel)
    (h : entityExists g r.source = false ∨ entityExists g r.target = false) :
    mergeEdge g r = g
      ∧ (mergeEdge g r).entities = g.entities
      ∧ createRelations g (r :: rs) = createRelations g rs
      ∧ (∀ rs2, (createRelations g rs2).entities = g.entities) := by
  have hm : mergeEdge g r = g := by
    unfold mergeEdge
    rcases h with h | h <;> simp [h]
  refine ⟨hm, by rw [hm], ?_, fun rs2 => createRelations_entities g rs2⟩
  show (r :: rs).foldl mergeEdge g = rs.foldl mergeEdge g
  rw [List.foldl_cons, hm]

/-- Witness for C5: creating `(A, B, LIKES)` when only `A` exists leaves
the store untouched. -/
theorem c5_missing_endpoint_witness :
    entityExists ⟨[⟨"A", "T", []⟩], []⟩ "B" = false
      ∧ mergeEdge ⟨[⟨"A", "T", []⟩], []⟩ ⟨"A", "B", "LIKES"⟩ = ⟨[⟨"A", "T", []⟩], []⟩ :=
  ⟨by decide,
    (c5_missing_endpoint ⟨[⟨"A", "T", []⟩], []⟩ ⟨"A", "B", "LIKES"⟩ [] (Or.inr (by decide))).1⟩

/-! ## C6 — createEntities upsert semantics -/

/-- The entity-name column is unchanged by an upsert of an existing name
and extended by exactly the new name otherwise. -/
theorem upsertEntity_names (g : Graph) (e : Entity) :
    (upsertEntity g e).entities.map Entity.name =
      if g.entities.any (fun x => x.name == e.name) then g.entities.map Entity.name
      else g.entities.map Entity.name ++ [e.name] := by
  unfold upsertEntity
  by_cases h : g.entities.any (fun x => x.name == e.name) = true
  · rw [if_pos h, if_pos h]
    show (g.entities.map _).map Entity.name = _
    rw [List.map_map]
    apply List.map_congr_left
    intro x _
    by_cases hx : x.name = e.name <;> simp [hx]
  · rw [if_neg h, if_neg h]
    simp

/-- Upserting preserves duplicate-freedom of the name column. -/
theorem upsertEntity_names_nodup (g : Graph) (e : Entity)
    (h : (g.entities.map Entity.name).Nodup) :
    ((upsertEntity g e).entities.map Entity.name).Nodup := by
  rw [upsertEntity_names]
  by_cases ha : g.entities.any (fun x => x.name == e.name) = true
  · rwa [if_pos ha]
  · rw [if_neg ha]
    refine List.Nodup.append h (List.nodup_singleton e.name) ?_
    intro b hb hb'
    rw [List.mem_singleton] at hb'
    subst hb'
    obtain ⟨x, hx, hxe⟩ := List.mem_map.mp hb
    exact ha (List.any_eq_true.mpr ⟨x, hx, by simp [hxe]⟩)

/-- After an upsert the name occurs exactly once in the name column,
provided names were unique before. -/
theorem upsertEntity_name_count (g : Graph) (e : Entity)
    (h : (g.entities.map Entity.name).Nodup) :
    ((upsertEntity g e).entities.map Entity.name).count e.name = 1 := by
  rw [upsertEntity_names]
  by_cases ha : g.entities.any (fun x => x.name == e.name) = true
  · rw [if_pos ha]
    obtain ⟨x, hx, hxe⟩ := List.any_eq_true.mp ha
    have hmem : e.name ∈ g.entities.map Entity.name :=
      List.mem_map.mpr ⟨x, hx, by simpa using hxe⟩
    exact List.count_eq_one_of_mem h hmem
  · rw [if_neg ha, List.count_append]
    have hnm : e.name ∉ g.entities.map Entity.name := by
      intro hmem
      obtain ⟨x, hx, hxe⟩ := List.mem_map.mp hmem
      exact ha (List.any_eq_true.mpr ⟨x, hx, by simp [hxe]⟩)
    rw [List.count_eq_zero.mpr hnm]
    simp

/-- Every record carrying the upserted name after an upsert is exactly
the upserted record. -/
theorem upsertEntity_named_eq (g : Graph) (e : Entity) :
    ∀ x ∈ (upsertEntity g e).entities, x.name = e.name → x = e := by
  intro x hx hname
  unfold upsertEntity at hx
  by_cases ha : g.entities.any (fun y => y.name == e.name) = true
  · rw [if_pos ha] at hx
    obtain ⟨y, hy, hyx⟩ := List.mem_map.mp hx
    by_cases hye : (y.name == e.name) = true
    · rw [if_pos hye] at hyx
      have : y.name = e.name := by simpa using hye
      cases e
      simp_all
    · rw [if_neg hye] at hyx
      subst hyx
      exact absurd hname (by simpa using hye)
  · rw [if_neg ha] at hx
    rcases List.mem_append.mp hx with hx | hx
    · exact absurd (List.any_eq_true.mpr ⟨x, hx, by simp [hname]⟩) ha
    · simpa using hx

/-- C6 counterexample: upserting `A` a second time replaces the stored
observations with the supplied ones in the `Neo4jClient` (`x` is lost,
not kept alongside `y`), and the API-key variant appends a duplicate
observation record instead of skipping it. -/
theorem c6_counterexample :
    (createEntities (createEntities ⟨[], []⟩ [⟨"A", "T", ["x"]⟩]) [⟨"A", "U", ["y"]⟩]).entities
        = [⟨"A", "U", ["y"]⟩]
      ∧ (apiCreateEntities (apiCreateEntities ⟨[], []⟩ [⟨"A", "T", some ["x"]⟩])
          [⟨"A", "U", some ["x"]⟩]).obsRecords = [("A", "x"), ("A", "x")] :=
  ⟨by decide, by decide⟩

/-- C6 (amended): creating an entity named `n` twice leaves exactly one
record named `n`, and that record carries the latest type together with
exactly the observations supplied by the second call (the `Neo4jClient`
upsert overwrites the observation property); the API-key variant instead
appends one observation record per supplied observation, unconditionally,
leaving existing records in place without skipping duplicates. -/
theorem c6_upsert_by_name (g : Graph) (n ty1 ty2 : String) (obs1 obs2 : List String)
    (hnd : (g.entities.map Entity.name).Nodup) :
    (((createEntities (createEntities g [⟨n, ty1, obs1⟩]) [⟨n, ty2, obs2⟩]).entities.map
        Entity.name).count n = 1)
      ∧ (∀ x ∈ (createEntities (createEntities g [⟨n, ty1, obs1⟩]) [⟨n, ty2, obs2⟩]).entities,
          x.name = n → x = ⟨n, ty2, obs2⟩)
      ∧ (∀ (ag : ApiGraph) (e : ApiEntityInput),
          (apiCreateEntity ag e).obsRecords
            = ag.obsRecords ++ (e.observations.getD []).map (fun c => (e.name, c))) := by
  have hstep : createEntities (createEntities g [⟨n, ty1, obs1⟩]) [⟨n, ty2, obs2⟩]
      = upsertEntity (upsertEntity g ⟨n, ty1, obs1⟩) ⟨n, ty2, obs2⟩ := rfl
  rw [hstep]
  refine ⟨?_, ?_, fun ag e => rfl⟩
  · exact upsertEntity_name_count _ ⟨n, ty2, obs2⟩ (upsertEntity_names_nodup _ _ hnd)
  · exact upsertEntity_named_eq _ ⟨n, ty2, obs2⟩

/-- Witness for C6 at concrete inputs: creating `A` as type `T` then as
type `U` leaves one record named `A`, equal to the second call. -/
theorem c6_upsert_by_name_witness :
    (((createEntities (createEntities ⟨[], []⟩ [⟨"A", "T", ["x"]⟩]) [⟨"A", "U", ["y"]⟩]).entities.map
        Entity.name).count "A" = 1)
      ∧ (⟨"A", "U", ["y"]⟩ : Entity)
          ∈ (createEntities (createEntities ⟨[], []⟩ [⟨"A", "T", ["x"]⟩])
              [⟨"A", "U", ["y"]⟩]).entities := by
  have h := c6_upsert_by_name ⟨[], []⟩ "A" "T" "U" ["x"] ["y"] (by decide)
  exact ⟨h.1, by decide⟩

/-! ## C7 — addObservations as a set union -/

/-- C7: for the unique entity carrying a batch-item name, only the
contents not already present are appended, in order; membership in the
result is union membership; the returned row carries exactly the
net-new strings; the count of an already-present string is unchanged
(no duplicate is produced for it); and a batch item whose contents are
all present leaves the observation list unchanged. -/
theorem c7_addObservations_set_union (g : Graph) (item : ObservationAddition) (e : Entity)
    (hu : g.entities.filter (fun x => x.name == item.entityName) = [e]) :
    ((addObservations g [item]).2 = [(e.name, newObs e.observations item.contents)])
      ∧ ((addObservations g [item]).1.entities.filter (fun x => x.name == item.entityName)
          = [{ e with observations := e.observations ++ newObs e.observations item.contents }])
      ∧ (∀ s, s ∈ e.observations ++ newObs e.observations item.contents ↔
          (s ∈ e.observations ∨ s ∈ item.contents))
      ∧ (∀ s, s ∈ newObs e.observations item.contents ↔
          (s ∈ item.contents ∧ s ∉ e.observations))
      ∧ (∀ s, s ∈ e.observations →
          (e.observations ++ newObs e.observations item.contents).count s
            = e.observations.count s)
      ∧ ((∀ c ∈ item.contents, c ∈ e.observations) →
          e.observations ++ newObs e.observations item.contents = e.observations) := by
  have hmemnew : ∀ s, s ∈ newObs e.observations item.contents ↔
      (s ∈ item.contents ∧ s ∉ e.observations) := by
    intro s
    simp [newObs]
  refine ⟨?_, ?_, ?_, hmemnew, ?_, ?_⟩
  · show ([] : List (String × List String))
        ++ (g.entities.filter (fun x => x.name == item.entityName)).map
            (fun x => (x.name, newObs x.observations item.contents)) = _
    rw [hu]
    rfl
  · show (g.entities.map (fun x =>
        if x.name == item.entityName then
          { x with observations := x.observations ++ newObs x.observations item.contents }
        else x)).filter (fun x => x.name == item.entityName) = _
    rw [List.filter_map]
    have hcong : g.entities.filter
        ((fun x => x.name == item.entityName) ∘ (fun x =>
          if x.name == item.entityName then
            { x with observations := x.observations ++ newObs x.observations item.contents }
          else x))
        = g.entities.filter (fun x => x.name == item.entityName) := by
      apply List.filter_congr
      intro x _
      by_cases hx : (x.name == item.entityName) = true <;> simp [Function.comp, hx]
    rw [hcong, hu]
    have he : (e.name == item.entityName) = true := by
      have : e ∈ g.entities.filter (fun x => x.name == item.entityName) := by
        rw [hu]; exact List.mem_singleton.mpr rfl
      exact (List.mem_filter.mp this).2
    simp only [List.map_cons, List.map_nil]
    rw [if_pos he]
  · intro s
    rw [List.mem_append, hmemnew s]
    constructor
    · rintro (hs | ⟨hs, _⟩)
      · exact Or.inl hs
      · exact Or.inr hs
    · rintro (hs | hs)
      · exact Or.inl hs
      · by_cases ho : s ∈ e.observations
        · exact Or.inl ho
        · exact Or.inr ⟨hs, ho⟩
  · intro s hs
    rw [List.count_append]
    have : s ∉ newObs e.observations item.contents := fun hmem =>
      ((hmemnew s).mp hmem).2 hs
    rw [List.count_eq_zero.mpr this]
    simp
  · intro hall
    have : newObs e.observations item.contents = [] := by
      rw [newObs, List.filter_eq_nil_iff]
      intro a ha
      simp [hall a ha]
    rw [this, List.append_nil]

/-- Witness for C7: adding `[x, y]` to entity `A` that already holds `x`
appends only `y` and reports only `y` as added. -/
theorem c7_addObservations_set_union_witness :
    (addObservations ⟨[⟨"A", "T", ["x"]⟩], []⟩ [⟨"A", ["x", "y"]⟩]).2 = [("A", ["y"])]
      ∧ (addObservations ⟨[⟨"A", "T", ["x"]⟩], []⟩
          [⟨"A", ["x", "y"]⟩]).1.entities.filter (fun x => x.name == "A")
            = [⟨"A", "T", ["x", "y"]⟩] := by
  have h := c7_addObservations_set_union ⟨[⟨"A", "T", ["x"]⟩], []⟩ ⟨"A", ["x", "y"]⟩
    ⟨"A", "T", ["x"]⟩ (by decide)
  have h1 := h.1
  have h2 := h.2.1
  rw [show newObs ["x"] ["x", "y"] = ["y"] from by decide] at h1 h2
  exact ⟨h1, h2⟩

/-! ## C8 — cascading entity deletion -/

/-- C8: deleting a list of names removes every entity record carrying a
listed name (with the observations the record holds) and every
relationship whose source or target is a deleted entity; a subsequent
`findNodes` for the deleted name returns the empty knowledge-graph view;
and deleting names that match no entity is a no-op. -/
theorem c8_delete_entities_cascades (g : Graph) (names : List String) (e : Entity)
    (he : e ∈ g.entities) (hn : names.contains e.name = true) :
    (∀ x ∈ (deleteEntities g names).entities, names.contains x.name = false)
      ∧ (∀ r ∈ (deleteEntities g names).edges, r.source ≠ e.name ∧ r.target ≠ e.name)
      ∧ findNodes (deleteEntities g names) [e.name] = ⟨[], []⟩
      ∧ (∀ (g2 : Graph) (names2 : List String),
          (∀ x ∈ g2.entities, names2.contains x.name = false) →
          deleteEntities g2 names2 = g2) := by
  have hdoomed : e.name ∈ (g.entities.filter (fun x => names.contains x.name)).map
      (fun x => x.name) :=
    List.mem_map.mpr ⟨e, List.mem_filter.mpr ⟨he, hn⟩, rfl⟩
  have hent : ∀ x ∈ (deleteEntities g names).entities, names.contains x.name = false := by
    intro x hx
    have := (List.mem_filter.mp hx).2
    simpa using this
  refine ⟨hent, ?_, ?_, ?_⟩
  · intro r hr
    have hcond := (List.mem_filter.mp hr).2
    simp only [Bool.and_eq_true, Bool.not_eq_eq_eq_not, Bool.not_true] at hcond
    obtain ⟨h1, h2⟩ := hcond
    have hsrc : r.source ∉ (g.entities.filter (fun x => names.contains x.name)).map
        (fun x => x.name) := by
      simpa using h1
    have htgt : r.target ∉ (g.entities.filter (fun x => names.contains x.name)).map
        (fun x => x.name) := by
      simpa using h2
    exact ⟨fun hq => hsrc (hq ▸ hdoomed), fun hq => htgt (hq ▸ hdoomed)⟩
  · have hmatched : (deleteEntities g names).entities.filter
        (fun x => [e.name].contains x.name) = [] := by
      rw [List.filter_eq_nil_iff]
      intro x hx
      have hxf := hent x hx
      intro hcontr
      have hxe : x.name = e.name := by simpa using hcontr
      rw [hxe, hn] at hxf
      exact Bool.noConfusion hxf
    show findNodes (deleteEntities g names) [e.name] = ⟨[], []⟩
    simp only [findNodes]
    rw [hmatched]
    simp
  · intro g2 names2 hnone
    have hfe : g2.entities.filter (fun x => !(names2.contains x.name)) = g2.entities := by
      rw [List.filter_eq_self]
      intro x hx
      simpa using hnone x hx
    have hdm : g2.entities.filter (fun x => names2.contains x.name) = [] := by
      rw [List.filter_eq_nil_iff]
      intro x hx
      simpa using hnone x hx
    show Graph.mk _ _ = g2
    rw [hfe, hdm]
    simp

/-- Witness for C8: deleting `A` from a two-entity graph with an edge
from `A` to `B` leaves only `B` and no edges, and finding `A` afterwards
returns the empty view. -/
theorem c8_delete_entities_cascades_witness :
    (∀ x ∈ (deleteEntities ⟨[⟨"A", "T", ["x"]⟩, ⟨"B", "U", []⟩], [⟨"A", "B", "t"⟩]⟩
        ["A"]).entities, (["A"] : List String).contains x.name = false)
      ∧ findNodes (deleteEntities ⟨[⟨"A", "T", ["x"]⟩, ⟨"B", "U", []⟩], [⟨"A", "B", "t"⟩]⟩
          ["A"]) ["A"] = ⟨[], []⟩ := by
  have h := c8_delete_entities_cascades ⟨[⟨"A", "T", ["x"]⟩, ⟨"B", "U", []⟩], [⟨"A", "B", "t"⟩]⟩
    ["A"] ⟨"A", "T", ["x"]⟩ (by decide) (by decide)
  exact ⟨h.1, h.2.2.1⟩

/-! ## C9 — delete_relations and the relationType argument -/

/-- C9 counterexample: the `delete_relations` schema rejects an item
lacking `relationType`, and deleting with a relationType different from
the one used at creation still removes the edge (the created `LIKES`
edge is removed by a `HATES` delete), both contrary to the claim. -/
theorem c9_counterexample :
    deleteRelationsParamsValid [⟨some "A", some "B", none⟩] = false
      ∧ (createRelations ⟨[⟨"A", "T", []⟩, ⟨"B", "U", []⟩], []⟩ [⟨"A", "B", "LIKES"⟩]).edges ≠ []
      ∧ (deleteRelations (createRelations ⟨[⟨"A", "T", []⟩, ⟨"B", "U", []⟩], []⟩
          [⟨"A", "B", "LIKES"⟩]) [⟨"A", "B", "HATES"⟩]).edges = [] :=
  ⟨by decide, by decide, by decide⟩

/-- C9 (amended): every `delete_relations` item must carry `source`,
`target` and `relationType` (the schema validates exactly that, so there
is no omitted-relationType mode); one delete statement removes exactly
the edges between the pair that carry the constant edge-type token; and
deleting any relation over a graph extended by any created relation on
the same pair removes every edge this server created between the pair,
regardless of both relationType values. -/
theorem c9_delete_relations_matching (items : List DeleteRelationArg) (g : Graph)
    (s t rt rt2 : String) :
    (deleteRelationsParamsValid items = true ↔
        ∀ i ∈ items, i.source.isSome ∧ i.target.isSome ∧ i.relationType.isSome)
      ∧ (∀ (g2 : Graph) (r : Rel), (deleteRelRow g2 r).edges
          = g2.edges.filter (fun e =>
              !(e.source == r.source && e.target == r.target && e.edgeType == edgeTypeToken)))
      ∧ (deleteRelations (createRelations g [⟨s, t, rt⟩]) [⟨s, t, rt2⟩]).edges
          = g.edges.filter (fun e =>
              !(e.source == s && e.target == t && e.edgeType == edgeTypeToken)) := by
  refine ⟨?_, fun g2 r => rfl, ?_⟩
  · unfold deleteRelationsParamsValid
    rw [List.all_eq_true]
    constructor
    · intro h i hi
      have h3 := h i hi
      simp at h3
      exact ⟨h3.1.1, h3.1.2, h3.2⟩
    · intro h i hi
      have h3 := h i hi
      simp [h3.1, h3.2.1, h3.2.2]
  · have hstep : deleteRelations (createRelations g [⟨s, t, rt⟩]) [⟨s, t, rt2⟩]
        = deleteRelRow (mergeEdge g ⟨s, t, rt⟩) ⟨s, t, rt2⟩ := rfl
    rw [hstep]
    show (mergeEdge g ⟨s, t, rt⟩).edges.filter _ = _
    unfold mergeEdge
    by_cases h1 : (entityExists g s && entityExists g t) = true
    · rw [if_pos h1]
      by_cases h2 : (⟨s, t, edgeTypeToken⟩ : Edge) ∈ g.edges
      · simp [h2]
      · rw [if_neg (by simpa using h2)]
        show (g.edges ++ [(⟨s, t, edgeTypeToken⟩ : Edge)]).filter _ = _
        rw [List.filter_append]
        simp
    · rw [if_neg h1]

/-- Witness for C9 (amended) at concrete inputs: a fully populated item
passes validation, and the create-then-delete round trip on the pair
`(A, B)` with differing relationType values leaves no edges. -/
theorem c9_delete_relations_matching_witness :
    deleteRelationsParamsValid [⟨some "A", some "B", some "LIKES"⟩] = true
      ∧ (deleteRelations (createRelations ⟨[⟨"A", "T", []⟩, ⟨"B", "U", []⟩], []⟩
          [⟨"A", "B", "LIKES"⟩]) [⟨"A", "B", "HATES"⟩]).edges
        = (⟨[⟨"A", "T", []⟩, ⟨"B", "U", []⟩], []⟩ : Graph).edges.filter (fun e =>
            !(e.source == "A" && e.target == "B" && e.edgeType == edgeTypeToken)) := by
  have h := c9_delete_relations_matching [⟨some "A", some "B", some "LIKES"⟩]
    ⟨[⟨"A", "T", []⟩, ⟨"B", "U", []⟩], []⟩ "A" "B" "LIKES" "HATES"
  exact ⟨h.1.mpr (by decide), h.2.2⟩

/-! ## C10 — OAuth token extraction and raw-token acceptance -/

/-- C10 counterexample: the empty-string Authorization header is present
and does not match the Bearer pattern, yet extraction returns `none`
rather than the whole header value, because the JS truthiness guard
treats the empty string like an absent header. -/
theorem c10_counterexample :
    extractTokenFromRequest (some "") = none
      ∧ bearerCapture "" = none
      ∧ extractTokenFromRequest (some "") ≠ some "" :=
  ⟨rfl, rfl, by decide⟩

/-- C10 (amended): extraction returns `none` exactly when the header is
absent or the empty string; every other non-Bearer header value is
returned whole and handed to JWT verification (a raw token without the
Bearer prefix is accepted); a matching Bearer header yields the captured
token. -/
theorem c10_token_extraction (auth : Option String) :
    (extractTokenFromRequest auth = none ↔ (auth = none ∨ auth = some ""))
      ∧ (∀ h, auth = some h → h ≠ "" → bearerCapture h = none →
          extractTokenFromRequest auth = some h)
      ∧ (∀ h tok, auth = some h → bearerCapture h = some tok →
          extractTokenFromRequest auth = some tok)
      ∧ (∀ h, auth = some h → h ≠ "" → bearerCapture h = none →
          oauthAuthenticate auth = .verifyAttempt h) := by
  refine ⟨?_, ?_, ?_, ?_⟩
  · cases auth with
    | none => simp [extractTokenFromRequest]
    | some h =>
      by_cases hh : h = ""
      · simp [extractTokenFromRequest, hh]
      · cases hb : bearerCapture h <;>
          simp [extractTokenFromRequest, hh, hb]
  · rintro h rfl hne hb
    simp [extractTokenFromRequest, hne, hb]
  · rintro h tok rfl hb
    by_cases hh : h = ""
    · rw [hh] at hb
      rw [show bearerCapture "" = none from rfl] at hb
      exact Option.noConfusion hb
    · simp [extractTokenFromRequest, hh, hb]
  · rintro h rfl hne hb
    have hext : extractTokenFromRequest (some h) = some h := by
      simp [extractTokenFromRequest, hne, hb]
    unfold oauthAuthenticate
    rw [hext]
    simp [hne]

/-- Witness for C10: a raw header without the Bearer prefix is returned
whole and verified as a JWT, and a Bearer header yields its token. -/
theorem c10_token_extraction_witness :
    extractTokenFromRequest (some "raw-token") = some "raw-token"
      ∧ oauthAuthenticate (some "raw-token") = .verifyAttempt "raw-token"
      ∧ extractTokenFromRequest (some "Bearer abc") = some "abc" := by
  have h := c10_token_extraction (some "raw-token")
  have h2 := c10_token_extraction (some "Bearer abc")
  exact ⟨h.2.1 "raw-token" rfl (by decide) (by decide),
    h.2.2.2 "raw-token" rfl (by decide) (by decide),
    h2.2.2.1 "Bearer abc" "abc" rfl (by decide)⟩

end Neo4jFastMcp
